import Mathlib

/-!
Verification of the version-resolution engine of `github-tag-action`
(`src/utils.ts` and the `main` entry point), shallowly embedded over
`List Char` strings.  JavaScript strings are modelled as `List Char`;
regular-expression operations are modelled at the concrete patterns the
source builds (all of which are anchored literals or simple character
classes), as documented at each definition.
-/

/-- JS `s.match(pat)` truthiness for a pattern `pat` that contains no regex
metacharacters: an unanchored regex search with a literal pattern succeeds
iff the pattern occurs as a substring.  (The source only ever reaches this
with operator-supplied branch patterns and with the pre-release identifier,
which is sanitised to `[A-Za-z0-9-]`.) -/
def jsMatchLit (s pat : List Char) : Bool :=
  match s with
  | [] => pat.isPrefixOf s
  | _ :: rest => pat.isPrefixOf s || jsMatchLit rest pat

/-- Split `s` at the first occurrence of `c`: returns the part before and,
when `c` occurs, the part after it. -/
def splitFirst (c : Char) (s : List Char) : List Char × Option (List Char) :=
  let before := s.takeWhile (fun x => x ≠ c)
  match s.dropWhile (fun x => x ≠ c) with
  | [] => (before, none)
  | _ :: rest => (before, some rest)

/-- `!c.isDigit`, the predicate for the lazy prefix of the version regex. -/
def notDigit (c : Char) : Bool := !c.isDigit

/-- The five capture groups of the tag-shape regex
`^(.*?)(\d+)(?:\.(\d+))?(?:\.(\d+))?(.*)$` from `convertVersionFormat`. -/
structure TagParts where
  pre : List Char
  majS : List Char
  minS : Option (List Char)
  patS : Option (List Char)
  suf : List Char
deriving DecidableEq, Repr

/-- One optional group `(?:\.(\d+))?`: consumes a dot followed by a maximal
run of digits, if present at the head of the input. -/
def matchDotNum : List Char → Option (List Char) × List Char
  | '.' :: c :: rest =>
    if c.isDigit then
      (some (c :: rest.takeWhile Char.isDigit), rest.dropWhile Char.isDigit)
    else (none, '.' :: c :: rest)
  | s => (none, s)

/-- `tag.match(/^(.*?)(\d+)(?:\.(\d+))?(?:\.(\d+))?(.*)$/)`.  The lazy
prefix group captures everything up to the first digit (the regex matches
iff a digit occurs), the major group captures the maximal digit run there,
the two optional groups each take a dot plus a maximal digit run when
present, and the greedy tail group captures the rest. -/
def matchTag (t : List Char) : Option TagParts :=
  let pre := t.takeWhile notDigit
  match t.dropWhile notDigit with
  | [] => none
  | c :: rest =>
    let majTail := rest.takeWhile Char.isDigit
    let r2 := rest.dropWhile Char.isDigit
    let m1 := matchDotNum r2
    let m2 := matchDotNum m1.2
    some ⟨pre, c :: majTail, m1.1, m2.1, m2.2⟩

/-- `versionMap[versionItem] || ''` of `convertVersionFormat`: looks a
template item up in `{ MAJOR: major, MINOR: minor, PATCH: patch }`, the
missing minor/patch groups having defaulted to `"0"`. -/
def lookupComponent (p : TagParts) (item : List Char) : List Char :=
  if item = ("MAJOR").data then p.majS
  else if item = ("MINOR").data then p.minS.getD ['0']
  else if item = ("PATCH").data then p.patS.getD ['0']
  else []

/-- `convertVersionFormat(tag, customVersionFormat)` from `utils.ts`.
A falsy format (`false` or the empty string, modelled as `[]`) returns the
tag unchanged; an unmatched tag yields the empty string; otherwise the
format template is re-rendered between the preserved prefix and suffix. -/
def convertVersionFormat (tag fmt : List Char) : List Char :=
  if fmt = [] then tag
  else
    match matchTag tag with
    | none => []
    | some p =>
      p.pre ++ List.intercalate ['.'] ((fmt.splitOn '.').map (lookupComponent p)) ++ p.suf

/-- JS `\w`: `[A-Za-z0-9_]`. -/
def isWordChar (c : Char) : Bool := c.isAlphanum || c = '_'

/-- Search for the first position of `s` where the regex `(PAT)(\w+)` matches,
`PAT` being the literal `pat`: returns the text before the match, the
(maximal, greedy) word-character run of the second group, and the rest.
Positions are scanned left to right one character at a time, as a regex
engine does. -/
def searchPatWord (pat : List Char) : List Char → Option (List Char × List Char × List Char)
  | [] => none
  | c :: rest =>
    if pat.isPrefixOf (c :: rest) then
      match (c :: rest).drop pat.length with
      | d :: r =>
        if isWordChar d then some ([], d :: r.takeWhile isWordChar, r.dropWhile isWordChar)
        else
          match searchPatWord pat rest with
          | some (b, run, after) => some (c :: b, run, after)
          | none => none
      | [] =>
        match searchPatWord pat rest with
        | some (b, run, after) => some (c :: b, run, after)
        | none => none
    else
      match searchPatWord pat rest with
      | some (b, run, after) => some (c :: b, run, after)
      | none => none

/-- Search for the first position of `s` where the regex `(PAT)\.(\w+)`
matches, `PAT` being the literal `pat`. -/
def searchPatDotWord (pat : List Char) : List Char → Option (List Char × List Char × List Char)
  | [] => none
  | c :: rest =>
    if pat.isPrefixOf (c :: rest) then
      match (c :: rest).drop pat.length with
      | '.' :: d :: r =>
        if isWordChar d then some ([], d :: r.takeWhile isWordChar, r.dropWhile isWordChar)
        else
          match searchPatDotWord pat rest with
          | some (b, run, after) => some (c :: b, run, after)
          | none => none
      | _ =>
        match searchPatDotWord pat rest with
        | some (b, run, after) => some (c :: b, run, after)
        | none => none
    else
      match searchPatDotWord pat rest with
      | some (b, run, after) => some (c :: b, run, after)
      | none => none

inductive DotMode where
  | remove
  | add
deriving DecidableEq, Repr

/-- The final `tag.replace(new RegExp(`(-id)\.(\w+)`), `$1$2`)` of
`removeDotFromPreReleaseIdentifier`: drop the dot after the identifier at
the first match; an unmatched tag is returned unchanged. -/
def removeModeReplace (tag id : List Char) : List Char :=
  match searchPatDotWord ('-' :: id) tag with
  | some (b, run, after) => b ++ '-' :: id ++ run ++ after
  | none => tag

/-- `removeDotFromPreReleaseIdentifier(tag, appendToPreReleaseTag, removeDot)`
from `utils.ts`.  In `add` mode the source first searches `(-id)(\w+)`;
when that matches it returns the tag unchanged if the second group starts
with a dot (unreachable,`\w` never matches a dot), else inserts a dot
(`$1.$2`); when it does not match, control falls through to the
dot-removing replacement shared with `remove` mode. -/
def removeDotFromPreReleaseIdentifier (tag id : List Char) (mode : DotMode) : List Char :=
  match mode with
  | .add =>
    match searchPatWord ('-' :: id) tag with
    | some (b, run, after) =>
      match run with
      | '.' :: _ => tag
      | _ => b ++ '-' :: id ++ '.' :: run ++ after
    | none => removeModeReplace tag id
  | .remove => removeModeReplace tag id

/-- A parsed semver pre-release identifier: the `semver` package stores an
all-digit identifier below `Number.MAX_SAFE_INTEGER` as a number and any
other identifier as its text. -/
inductive PreId where
  | num (n : Nat)
  | str (s : List Char)
deriving DecidableEq, Repr

/-- A parsed semver value as built by `new SemVer(...)`: numeric core
components, the pre-release identifier sequence and the (precedence-inert)
build metadata. -/
structure SemVer where
  major : Nat
  minor : Nat
  patch : Nat
  pre : List PreId
  build : List (List Char)
deriving DecidableEq, Repr

def MAX_SAFE_INTEGER : Nat := 2 ^ 53 - 1

def SEMVER_MAX_LENGTH : Nat := 256

/-- `[0-9a-zA-Z-]`, the character class of pre-release/build identifiers. -/
def isIdentChar (c : Char) : Bool := c.isAlphanum || c = '-'

/-- Numeric value of a digit string. -/
def digitsVal (s : List Char) : Nat :=
  s.foldl (fun a c => a * 10 + (c.toNat - ('0').toNat)) 0

/-- `0|[1-9]\d*`: a digit string without leading zeros. -/
def isNumericNoLeadZero (s : List Char) : Bool :=
  match s with
  | [] => false
  | ['0'] => true
  | c :: rest => (('1' ≤ c && c ≤ '9') && rest.all Char.isDigit)

/-- One pre-release identifier, `0|[1-9]\d*|\d*[a-zA-Z-][0-9a-zA-Z-]*`,
converted to a number when all-digit and below `MAX_SAFE_INTEGER`. -/
def parsePreId (s : List Char) : Option PreId :=
  if s = [] then none
  else if s.all Char.isDigit then
    if isNumericNoLeadZero s then
      if digitsVal s < MAX_SAFE_INTEGER then some (.num (digitsVal s)) else some (.str s)
    else none
  else if s.all isIdentChar then some (.str s) else none

/-- The dot-separated pre-release identifier list after the `-`. -/
def parsePreList (s : List Char) : Option (List PreId) :=
  let parts := (s.splitOn '.').map parsePreId
  if parts.all Option.isSome then some (parts.map (fun o => o.getD (.num 0))) else none

/-- One build identifier, `[0-9a-zA-Z-]+`. -/
def parseBuildId (s : List Char) : Option (List Char) :=
  if s ≠ [] && s.all isIdentChar then some s else none

/-- The dot-separated build metadata list after the `+`. -/
def parseBuildList (s : List Char) : Option (List (List Char)) :=
  let parts := (s.splitOn '.').map parseBuildId
  if parts.all Option.isSome then some (parts.map (fun o => o.getD [])) else none

/-- `MAJOR.MINOR.PATCH`, three no-leading-zero numbers each bounded by
`MAX_SAFE_INTEGER` (the constructor throws above it). -/
def semverParseCore (s : List Char) : Option (Nat × Nat × Nat) :=
  match s.splitOn '.' with
  | [a, b, c] =>
    if (isNumericNoLeadZero a && isNumericNoLeadZero b && isNumericNoLeadZero c)
        && (decide (digitsVal a ≤ MAX_SAFE_INTEGER) && decide (digitsVal b ≤ MAX_SAFE_INTEGER)
            && decide (digitsVal c ≤ MAX_SAFE_INTEGER)) then
      some (digitsVal a, digitsVal b, digitsVal c)
    else none
  | _ => none

/-- JS `String.prototype.trim` on the ASCII whitespace a git ref could ever
carry. -/
def jsTrim (s : List Char) : List Char :=
  ((s.dropWhile Char.isWhitespace).reverse.dropWhile Char.isWhitespace).reverse

/-- `new SemVer(version)` of the `semver` package in strict mode, i.e. the
anchored regex `^v?(0|[1-9]\d*)\.(0|[1-9]\d*)\.(0|[1-9]\d*)`
`(?:-((?:0|[1-9]\d*|\d*[a-zA-Z-][0-9a-zA-Z-]*)(?:\.(…))*))?`
`(?:\+([0-9a-zA-Z-]+(?:\.[0-9a-zA-Z-]+)*))?$` applied to the trimmed input
after a length check.  A pre-release part contains no `+` and the core no
`-`, so the string splits at the first `+` and then at the first `-`.
`valid(x)` of the package is truthy exactly when this parse succeeds. -/
def semverParse (input : List Char) : Option SemVer :=
  if SEMVER_MAX_LENGTH < input.length then none
  else
    let s0 := jsTrim input
    let s := match s0 with
      | 'v' :: rest => rest
      | _ => s0
    let bp := splitFirst '+' s
    let cp := splitFirst '-' bp.1
    match semverParseCore cp.1 with
    | none => none
    | some mmp =>
      let withPre : Option (List PreId) :=
        match cp.2 with
        | none => some []
        | some p => parsePreList p
      let withBuild : Option (List (List Char)) :=
        match bp.2 with
        | none => some []
        | some b => parseBuildList b
      match withPre, withBuild with
      | some pl, some bl => some ⟨mmp.1, mmp.2.1, mmp.2.2, pl, bl⟩
      | _, _ => none

/-- `prerelease(version)` of the `semver` package: the pre-release identifier
array when the version parses and has one, else `null`. -/
def semverPrerelease (s : List Char) : Option (List PreId) :=
  match semverParse s with
  | some v => if v.pre = [] then none else some v.pre
  | none => none

/-- Three-way comparison of two numbers, as `compareIdentifiers` performs it
on numeric operands (`a === b ? 0 : a < b ? -1 : 1`). -/
def cmpNat (a b : Nat) : Int :=
  if a < b then -1 else if b < a then 1 else 0

/-- Three-way comparison of two identifier strings by the JS `<` operator
(lexicographic by code unit), after the `a === b` equality test. -/
def cmpStr : List Char → List Char → Int
  | [], [] => 0
  | [], _ :: _ => -1
  | _ :: _, [] => 1
  | a :: as, b :: bs =>
    if a.toNat < b.toNat then -1
    else if b.toNat < a.toNat then 1
    else cmpStr as bs

/-- `compareIdentifiers(a, b)` of the `semver` package on two stored
pre-release identifiers: numeric identifiers compare numerically and sort
before alphanumeric ones, alphanumeric ones compare as strings. -/
def cmpPreId : PreId → PreId → Int
  | .num a, .num b => cmpNat a b
  | .num _, .str _ => -1
  | .str _, .num _ => 1
  | .str a, .str b => cmpStr a b

/-- The `do … while` loop of `SemVer.comparePre`: positional comparison of
the two identifier sequences, an exhausted side comparing lower.  The
source's `a === b → continue` / `compareIdentifiers(a, b)` is
`if cmpPreId a b = 0 then recurse else cmpPreId a b`, `cmpPreId`
returning `0` exactly on identical identifiers. -/
def cmpPreRest : List PreId → List PreId → Int
  | [], [] => 0
  | [], _ :: _ => -1
  | _ :: _, [] => 1
  | a :: as, b :: bs => if cmpPreId a b = 0 then cmpPreRest as bs else cmpPreId a b

/-- `SemVer.comparePre`: a release (empty pre-release list) outranks every
pre-release of the same core, two pre-releases compare positionally. -/
def comparePre : List PreId → List PreId → Int
  | [], [] => 0
  | [], _ :: _ => 1
  | _ :: _, [] => -1
  | a :: as, b :: bs => cmpPreRest (a :: as) (b :: bs)

/-- JS `x || y` on three-way comparison results: `0` is falsy. -/
def intOr (a b : Int) : Int := if a = 0 then b else a

/-- `SemVer.compareMain`: major, then minor, then patch. -/
def compareMain (x y : SemVer) : Int :=
  intOr (cmpNat x.major y.major) (intOr (cmpNat x.minor y.minor) (cmpNat x.patch y.patch))

/-- `SemVer.compare` = `compareMain || comparePre`; build metadata is
ignored. -/
def compareSemVer (x y : SemVer) : Int :=
  intOr (compareMain x y) (comparePre x.pre y.pre)

/-- Compare two optional parses, parse failures ordered below successes.
`rcompare` throws on an unparsable operand; the only call site compares
tags that already passed `valid`, so the value on a `none` operand is
unobservable and is fixed here only to keep the comparator total. -/
def optCmp (cmp : SemVer → SemVer → Int) : Option SemVer → Option SemVer → Int
  | some x, some y => cmp x y
  | some _, none => -1
  | none, some _ => 1
  | none, none => 0

/-- `rcompare(a, b)` of the `semver` package: `compare(b, a)`, i.e. the
descending comparator, on the parsed operands. -/
def rcompareStr (a b : List Char) : Int :=
  optCmp (fun x y => compareSemVer y x) (semverParse a) (semverParse b)

/-- A tag record as returned by `listTags`: a name and a commit sha. -/
structure Tag where
  name : List Char
  sha : List Char
deriving DecidableEq, Repr

/-- `prefixRegex.test(name)` for `prefixRegex = new RegExp(`^${tagPrefix}`)`
with a metacharacter-free `tagPrefix`: an anchored literal match. -/
def prefTest (pref s : List Char) : Bool := pref.isPrefixOf s

/-- `name.replace(prefixRegex, '')`: the anchored pattern can only match at
the start, so the first (and only) match is the leading prefix. -/
def stripPref (pref s : List Char) : List Char :=
  if pref.isPrefixOf s then s.drop pref.length else s

/-- The validity test of `getValidTags`:
`prefixRegex.test(tag.name) && valid(tag.name.replace(prefixRegex, ''))`. -/
def validTagPred (pref : List Char) (t : Tag) : Bool :=
  prefTest pref t.name && (semverParse (stripPref pref t.name)).isSome

/-- The sort relation of `getValidTags`: JS `Array.prototype.sort` with the
comparator `(a, b) => rcompare(strip a.name, strip b.name)` produces the
unique stable order in which every earlier element compares `≤ 0` to every
later one; `insertionSort` below realises exactly that order. -/
def tagSortRel (pref : List Char) (a b : Tag) : Prop :=
  rcompareStr (stripPref pref a.name) (stripPref pref b.name) ≤ 0

instance (pref : List Char) : DecidableRel (tagSortRel pref) :=
  fun a b => inferInstanceAs (Decidable (_ ≤ _))

/-- `getValidTags(prefixRegex, shouldFetchAllTags, isCustomVersionFormat)`
from `utils.ts`, with the fetched tag list passed in.  A truthy
`isCustomVersionFormat` (any non-empty format string — `main` passes
`versionFormat` itself, so the default `MAJOR.MINOR.PATCH` is truthy too)
first rewrites every tag name to canonical shape; tags failing the
prefix/semver validation are dropped; the remainder is sorted descending
by `rcompare`. -/
def getValidTags (pref fmt : List Char) (tags : List Tag) : List Tag :=
  let tags2 :=
    if fmt = [] then tags
    else tags.map (fun t => { t with name := convertVersionFormat t.name (("MAJOR.MINOR.PATCH").data) })
  List.insertionSort (tagSortRel pref) (tags2.filter (validTagPred pref))

/-- The predicate of `getLatestTag`'s `find`: prefix matches and the
stripped name has no pre-release component (`!prerelease(...)`). -/
def latestTagPred (pref : List Char) (t : Tag) : Bool :=
  prefTest pref t.name && (semverPrerelease (stripPref pref t.name)).isNone

/-- `getLatestTag(tags, prefixRegex, tagPrefix)` from `utils.ts`: the first
non-pre-release tag of the catalog, or the synthetic `{prefix}0.0.0` at
`HEAD`. -/
def getLatestTag (tags : List Tag) (pref tagPref : List Char) : Tag :=
  (tags.find? (latestTagPred pref)).getD ⟨tagPref ++ ("0.0.0").data, ("HEAD").data⟩

/-- `getLatestPrereleaseTag(tags, identifier, prefixRegex)` from `utils.ts`:
among the tags whose stripped name has a pre-release component, the first
whose stripped name matches the (sanitised, hence literal) identifier. -/
def getLatestPrereleaseTag (tags : List Tag) (id pref : List Char) : Option Tag :=
  (tags.filter (fun t => (semverPrerelease (stripPref pref t.name)).isSome)).find?
    (fun t => jsMatchLit (stripPref pref t.name) id)

/-- `gte(a, b)` of the `semver` package: `compare(a, b) >= 0`.  It throws on
an unparsable operand; the call site only compares validated tags, so the
`none` branches are unobservable. -/
def gteStr (a b : List Char) : Bool :=
  match semverParse a, semverParse b with
  | some x, some y => decide (0 ≤ compareSemVer x y)
  | _, _ => false

/-- The `previousTag` selection of `main` (lines 310–324): the latest tag
when no matching pre-release tag exists or the branch is a release branch,
else whichever of the two has greater-or-equal semver precedence. -/
def selectPreviousTag (tags : List Tag) (pref tagPref id : List Char) (isRel : Bool) : Tag :=
  let latestTag := getLatestTag tags pref tagPref
  match getLatestPrereleaseTag tags id pref with
  | none => latestTag
  | some lp =>
    if isRel then latestTag
    else if gteStr (stripPref pref latestTag.name) (stripPref pref lp.name) then latestTag
    else lp

/-- First index satisfying a predicate. -/
def findIdxA (p : α → Bool) : List α → Option Nat
  | [] => none
  | a :: l => if p a then some 0 else (findIdxA p l).map (· + 1)

/-- The predicate selecting `latestPrereleaseTag` entries, fused from the
`filter`/`find` pair of `getLatestPrereleaseTag`. -/
def prereleasePred (pref id : List Char) (t : Tag) : Bool :=
  (semverPrerelease (stripPref pref t.name)).isSome && jsMatchLit (stripPref pref t.name) id

/-- The catalog index of the entry `previousTag` aliases (`find` returns the
stored object itself), `none` when the synthetic `{prefix}0.0.0` fallback
was selected.  The branching mirrors `selectPreviousTag`. -/
def selectPreviousTagIdx (tags : List Tag) (pref tagPref id : List Char) (isRel : Bool) :
    Option Nat :=
  let latestIdx := findIdxA (latestTagPred pref) tags
  match getLatestPrereleaseTag tags id pref with
  | none => latestIdx
  | some lp =>
    if isRel then latestIdx
    else if gteStr (stripPref pref (getLatestTag tags pref tagPref).name) (stripPref pref lp.name)
      then latestIdx
    else findIdxA (prereleasePred pref id) tags

/-- Lines 331–348 of `main`: `previousTag.name = convertVersionFormat(
previousTag.name, versionFormat)` rewrites, in place, the name of the
catalog entry aliased by `previousTag` (a no-op on the catalog when the
synthetic fallback was selected); the first component is the catalog after
the assignment, the second the `previousTag` value rendered as the
`previous_tag` output. -/
def prevTagStep (tags : List Tag) (pref tagPref id fmt : List Char) (isRel : Bool) :
    List Tag × Tag :=
  let chosen := selectPreviousTag tags pref tagPref id isRel
  let mutated : Tag := ⟨convertVersionFormat chosen.name fmt, chosen.sha⟩
  match selectPreviousTagIdx tags pref tagPref id isRel with
  | some i => (tags.set i mutated, mutated)
  | none => (tags, mutated)

/-- `getBranchFromRef`: `ref.replace('refs/heads/', '')`, a first-occurrence
literal replacement. -/
def replaceFirstLit (pat repl : List Char) : List Char → List Char
  | [] => if pat = [] then repl else []
  | c :: rest =>
    if pat.isPrefixOf (c :: rest) then repl ++ (c :: rest).drop pat.length
    else c :: replaceFirstLit pat repl rest

def getBranchFromRef (ref : List Char) : List Char :=
  replaceFirstLit (("refs/heads/").data) [] ref

/-- `isPr(ref)`: `ref.includes('refs/pull/')`. -/
def isPr (ref : List Char) : Bool := jsMatchLit ref (("refs/pull/").data)

/-- `patterns.split(',').some(branch => currentBranch.match(branch))` with
literal (metacharacter-free) pattern entries. -/
def anyPatternMatches (patterns branch : List Char) : Bool :=
  (patterns.splitOn ',').any (fun p => jsMatchLit branch p)

inductive BranchRole where
  | release
  | preRelease
  | other
deriving DecidableEq, Repr

/-- The branch classification of `main` (lines 259–267): `isReleaseBranch`
is a pattern match alone; `isPrerelease` additionally requires the ref not
to be a pull request.  The role collapses the booleans with `Release`
taking precedence, as the downstream guards read them. -/
def classifyBranch (ref relB preB : List Char) : BranchRole :=
  let currentBranch := getBranchFromRef ref
  let isReleaseBranch := anyPatternMatches relB currentBranch
  let isPrerelease := !isReleaseBranch && !isPr ref && anyPatternMatches preB currentBranch
  if isReleaseBranch then .release
  else if isPrerelease then .preRelease
  else .other

/-- `['patch', 'minor', 'major']`, the `bumpPriority` table of `main`. -/
def bumpPriority : List (List Char) :=
  [("patch").data, ("minor").data, ("major").data]

/-- JS `Array.prototype.indexOf`: the first index of the value, `-1` when
absent. -/
def jsIndexOf (l : List (List Char)) (x : List Char) : Int :=
  match findIdxA (fun y => y = x) l with
  | some i => (i : Int)
  | none => -1

/-- Line 401 of `main`, the non-pre-release release-type decision:
`bumpPriority.indexOf(defaultBump) > bumpPriority.indexOf(bump)
? defaultBump : bump`. -/
def releaseTypeOnReleaseBranch (defaultBump bump : List Char) : List Char :=
  if jsIndexOf bumpPriority defaultBump > jsIndexOf bumpPriority bump then defaultBump else bump

/-- Lines 436–437 of `main`: the displayed new version and new tag. -/
def computeNewVersion (nv fmt : List Char) : List Char := convertVersionFormat nv fmt

def computeNewTag (tagPref nv fmt : List Char) : List Char :=
  convertVersionFormat (tagPref ++ convertVersionFormat nv fmt) fmt

inductive RunOutcome where
  | created (tag : List Char)
  | skippedBranch
  | skippedExists
  | skippedDryRun
deriving DecidableEq, Repr

/-- Lines 467–484 of `main`: the three guards between the outputs and
`createTag`.  None of these paths calls `core.setFailed`; each skip is an
ordinary successful return. -/
def finalizeRun (validTags : List Tag) (newTag : List Char) (isRel isPre dry : Bool) :
    RunOutcome :=
  if !isRel && !isPre then .skippedBranch
  else if (validTags.map Tag.name).contains newTag then .skippedExists
  else if dry then .skippedDryRun
  else .created newTag

/-- Lines 436–484 of `main`: the `new_version`, `new_tag` and `changelog`
outputs (the changelog text itself comes from the external notes
generator) are set unconditionally, then the guards run. -/
def mainTail (validTags : List Tag) (nv tagPref fmt changelog : List Char)
    (isRel isPre dry : Bool) : List (List Char × List Char) × RunOutcome :=
  let newVersion := computeNewVersion nv fmt
  let newTag := computeNewTag tagPref nv fmt
  ([(("new_version").data, newVersion), (("new_tag").data, newTag),
    (("changelog").data, changelog)],
   finalizeRun validTags newTag isRel isPre dry)

/-- Render an optional dot-prefixed capture back to text. -/
def optDot : Option (List Char) → List Char
  | none => []
  | some m => '.' :: m

/-- The head of a suffix left by the version regex is never a digit. -/
def headNotDigitB : List Char → Bool
  | [] => true
  | c :: _ => !c.isDigit

/-- Which numeric components a tag must carry to "match format `F`'s numeric
pattern with exactly the components `F` names" (the round-trip law's
hypothesis): all three for `MAJOR.MINOR.PATCH`, major+minor for
`MAJOR.MINOR`, major alone for `MAJOR`. -/
def formatShape (F : List Char) (p : TagParts) : Prop :=
  (F = ("MAJOR.MINOR.PATCH").data ∧ p.minS.isSome = true ∧ p.patS.isSome = true) ∨
  (F = ("MAJOR.MINOR").data ∧ p.minS.isSome = true ∧ p.patS = none) ∨
  (F = ("MAJOR").data ∧ p.minS = none ∧ p.patS = none)

/-- The laws a three-way comparator needs for sortedness reasoning:
antisymmetry, the {-1,0,1} range, congruence of ties and transitivity of
strict ordering. -/
structure LawfulCmp {α : Type} (cmp : α → α → Int) : Prop where
  antisym : ∀ a b, cmp b a = -cmp a b
  range : ∀ a b, cmp a b = -1 ∨ cmp a b = 0 ∨ cmp a b = 1
  congrL : ∀ a b c, cmp a b = 0 → cmp a c = cmp b c
  ltTrans : ∀ a b c, cmp a b = -1 → cmp b c = -1 → cmp a c = -1

/-- Text of a stored pre-release identifier, as `semver` would print it. -/
def preIdText : PreId → List Char
  | .num n => (Nat.repr n).data
  | .str s => s

/-- The pre-release component of a version, rendered as the dot-separated
text between the `-` and the end (or `+`) of the version string. -/
def preText (l : List PreId) : List Char :=
  List.intercalate ['.'] (l.map preIdText)

theorem takeWhile_append_all {α : Type} {p : α → Bool} {a : List α} (b : List α)
    (h : ∀ x ∈ a, p x = true) : (a ++ b).takeWhile p = a ++ b.takeWhile p := by
  induction a with
  | nil => rfl
  | cons x xs ih =>
    have hx : p x = true := h x (List.mem_cons_self x xs)
    simp [List.takeWhile_cons, hx, ih (fun y hy => h y (List.mem_cons_of_mem x hy))]

theorem dropWhile_append_all {α : Type} {p : α → Bool} {a : List α} (b : List α)
    (h : ∀ x ∈ a, p x = true) : (a ++ b).dropWhile p = b.dropWhile p := by
  induction a with
  | nil => rfl
  | cons x xs ih =>
    have hx : p x = true := h x (List.mem_cons_self x xs)
    simp [List.dropWhile_cons, hx, ih (fun y hy => h y (List.mem_cons_of_mem x hy))]

theorem dropWhile_head_false {α : Type} {p : α → Bool} {l : List α} {c : α} {cs : List α}
    (h : l.dropWhile p = c :: cs) : p c = false := by
  induction l with
  | nil => simp at h
  | cons x xs ih =>
    by_cases hx : p x = true
    · rw [List.dropWhile_cons, if_pos hx] at h
      exact ih h
    · rw [List.dropWhile_cons, if_neg hx] at h
      cases h
      simpa using hx

theorem headNotDigitB_dropWhile (l : List Char) :
    headNotDigitB (l.dropWhile Char.isDigit) = true := by
  induction l with
  | nil => rfl
  | cons c cs ih =>
    by_cases hc : c.isDigit = true
    · rw [List.dropWhile_cons, if_pos hc]
      exact ih
    · rw [List.dropWhile_cons, if_neg hc]
      simp [headNotDigitB]
      simpa using hc

theorem matchDotNum_decomp (s : List Char) :
    optDot (matchDotNum s).1 ++ (matchDotNum s).2 = s := by
  unfold matchDotNum
  split
  · rename_i c rest
    split
    · simp [optDot, List.takeWhile_append_dropWhile]
    · simp [optDot]
  · simp [optDot]

theorem matchDotNum_fst_some {s : List Char} {m : List Char}
    (h : (matchDotNum s).1 = some m) : m ≠ [] ∧ ∀ c ∈ m, c.isDigit = true := by
  unfold matchDotNum at h
  revert h
  split
  · rename_i c rest
    split
    · rename_i hc
      intro h
      simp only [Option.some.injEq] at h
      subst h
      refine ⟨by simp, ?_⟩
      intro x hx
      rcases List.mem_cons.mp hx with h1 | h2
      · subst h1; exact hc
      · exact List.mem_takeWhile_imp h2
    · intro h; simp at h
  · intro h; simp at h

theorem matchDotNum_snd (s : List Char) :
    (matchDotNum s).2 = s ∨ headNotDigitB (matchDotNum s).2 = true := by
  unfold matchDotNum
  split
  · rename_i c rest
    split
    · right
      exact headNotDigitB_dropWhile rest
    · left; rfl
  · left; rfl

theorem matchTag_decomp {t : List Char} {p : TagParts} (h : matchTag t = some p) :
    t = p.pre ++ p.majS ++ optDot p.minS ++ optDot p.patS ++ p.suf := by
  unfold matchTag at h
  revert h
  split
  · intro h; simp at h
  · rename_i c rest hdrop
    intro h
    simp only [Option.some.injEq] at h
    subst h
    simp only
    have h1 : t = t.takeWhile notDigit ++ (c :: rest) := by
      rw [← hdrop, List.takeWhile_append_dropWhile]
    have h2 : rest = rest.takeWhile Char.isDigit ++ rest.dropWhile Char.isDigit :=
      (List.takeWhile_append_dropWhile _ _).symm
    have h3 := matchDotNum_decomp (rest.dropWhile Char.isDigit)
    have h4 := matchDotNum_decomp (matchDotNum (rest.dropWhile Char.isDigit)).2
    calc t = t.takeWhile notDigit ++ (c :: rest) := h1
    _ = t.takeWhile notDigit ++ (c :: (rest.takeWhile Char.isDigit ++ rest.dropWhile Char.isDigit)) := by rw [← h2]
    _ = t.takeWhile notDigit ++ (c :: (rest.takeWhile Char.isDigit ++ (optDot (matchDotNum (rest.dropWhile Char.isDigit)).1 ++ (matchDotNum (rest.dropWhile Char.isDigit)).2))) := by rw [h3]
    _ = t.takeWhile notDigit ++ (c :: (rest.takeWhile Char.isDigit ++ (optDot (matchDotNum (rest.dropWhile Char.isDigit)).1 ++ (optDot (matchDotNum (matchDotNum (rest.dropWhile Char.isDigit)).2).1 ++ (matchDotNum (matchDotNum (rest.dropWhile Char.isDigit)).2).2)))) := by rw [h4]
    _ = _ := by simp

theorem matchTag_shape {t : List Char} {p : TagParts} (h : matchTag t = some p) :
    (∀ c ∈ p.pre, c.isDigit = false) ∧
    (p.majS ≠ [] ∧ ∀ c ∈ p.majS, c.isDigit = true) ∧
    (∀ m, p.minS = some m → m ≠ [] ∧ ∀ c ∈ m, c.isDigit = true) ∧
    (∀ m, p.patS = some m → m ≠ [] ∧ ∀ c ∈ m, c.isDigit = true) ∧
    headNotDigitB p.suf = true := by
  unfold matchTag at h
  revert h
  split
  · intro h; simp at h
  · rename_i c rest hdrop
    intro h
    simp only [Option.some.injEq] at h
    subst h
    simp only
    refine ⟨?_, ⟨by simp, ?_⟩, ?_, ?_, ?_⟩
    · intro x hx
      have := List.mem_takeWhile_imp hx
      simpa [notDigit] using this
    · intro x hx
      rcases List.mem_cons.mp hx with h1 | h2
      · subst h1
        have := dropWhile_head_false hdrop
        simpa [notDigit] using this
      · exact List.mem_takeWhile_imp h2
    · intro m hm
      exact matchDotNum_fst_some hm
    · intro m hm
      exact matchDotNum_fst_some hm
    · rcases matchDotNum_snd (matchDotNum (rest.dropWhile Char.isDigit)).2 with h1 | h1
      · rw [h1]
        rcases matchDotNum_snd (rest.dropWhile Char.isDigit) with h2 | h2
        · rw [h2]
          exact headNotDigitB_dropWhile rest
        · exact h2
      · exact h1

theorem takeWhile_digit_nil {s : List Char} (h : headNotDigitB s = true) :
    s.takeWhile Char.isDigit = [] := by
  cases s with
  | nil => rfl
  | cons c cs =>
    simp only [headNotDigitB, Bool.not_eq_true'] at h
    simp [List.takeWhile_cons, h]

theorem dropWhile_digit_self {s : List Char} (h : headNotDigitB s = true) :
    s.dropWhile Char.isDigit = s := by
  cases s with
  | nil => rfl
  | cons c cs =>
    simp only [headNotDigitB, Bool.not_eq_true'] at h
    simp [List.dropWhile_cons, h]

theorem matchTag_reparse {pre M m q suf : List Char}
    (hpre : ∀ c ∈ pre, c.isDigit = false)
    (hM0 : M ≠ []) (hM : ∀ c ∈ M, c.isDigit = true)
    (hm0 : m ≠ []) (hm : ∀ c ∈ m, c.isDigit = true)
    (hq0 : q ≠ []) (hq : ∀ c ∈ q, c.isDigit = true)
    (hsuf : headNotDigitB suf = true) :
    matchTag (pre ++ (M ++ ('.' :: (m ++ ('.' :: (q ++ suf))))))
      = some ⟨pre, M, some m, some q, suf⟩ := by
  cases M with
  | nil => exact absurd rfl hM0
  | cons cM Mtl =>
  cases m with
  | nil => exact absurd rfl hm0
  | cons cm mtl =>
  cases q with
  | nil => exact absurd rfl hq0
  | cons cq qtl =>
  have hcM : cM.isDigit = true := hM cM (List.mem_cons_self _ _)
  have hMtl : ∀ c ∈ Mtl, Char.isDigit c = true := fun c hc => hM c (List.mem_cons_of_mem _ hc)
  have hcm : cm.isDigit = true := hm cm (List.mem_cons_self _ _)
  have hmtl : ∀ c ∈ mtl, Char.isDigit c = true := fun c hc => hm c (List.mem_cons_of_mem _ hc)
  have hcq : cq.isDigit = true := hq cq (List.mem_cons_self _ _)
  have hqtl : ∀ c ∈ qtl, Char.isDigit c = true := fun c hc => hq c (List.mem_cons_of_mem _ hc)
  have hpre' : ∀ c ∈ pre, notDigit c = true := by
    intro c hc; simp [notDigit, hpre c hc]
  have htake : (pre ++ ((cM :: Mtl) ++ ('.' :: ((cm :: mtl) ++ ('.' :: ((cq :: qtl) ++ suf)))))).takeWhile notDigit = pre := by
    rw [takeWhile_append_all _ hpre']
    simp [List.takeWhile_cons, notDigit, hcM]
  have hdrop : (pre ++ ((cM :: Mtl) ++ ('.' :: ((cm :: mtl) ++ ('.' :: ((cq :: qtl) ++ suf)))))).dropWhile notDigit
      = cM :: (Mtl ++ ('.' :: ((cm :: mtl) ++ ('.' :: ((cq :: qtl) ++ suf))))) := by
    rw [dropWhile_append_all _ hpre']
    simp [List.dropWhile_cons, notDigit, hcM]
  have htake2 : (Mtl ++ ('.' :: ((cm :: mtl) ++ ('.' :: ((cq :: qtl) ++ suf))))).takeWhile Char.isDigit = Mtl := by
    rw [takeWhile_append_all _ hMtl]
    simp [List.takeWhile_cons]
  have hdrop2 : (Mtl ++ ('.' :: ((cm :: mtl) ++ ('.' :: ((cq :: qtl) ++ suf))))).dropWhile Char.isDigit
      = '.' :: ((cm :: mtl) ++ ('.' :: ((cq :: qtl) ++ suf))) := by
    rw [dropWhile_append_all _ hMtl]
    simp [List.dropWhile_cons]
  have hmd1 : matchDotNum ('.' :: ((cm :: mtl) ++ ('.' :: ((cq :: qtl) ++ suf))))
      = (some (cm :: mtl), '.' :: ((cq :: qtl) ++ suf)) := by
    show matchDotNum ('.' :: cm :: (mtl ++ ('.' :: ((cq :: qtl) ++ suf)))) = _
    rw [matchDotNum]
    rw [if_pos hcm]
    rw [takeWhile_append_all _ hmtl, dropWhile_append_all _ hmtl]
    simp [List.takeWhile_cons, List.dropWhile_cons]
  have hmd2 : matchDotNum ('.' :: ((cq :: qtl) ++ suf)) = (some (cq :: qtl), suf) := by
    show matchDotNum ('.' :: cq :: (qtl ++ suf)) = _
    rw [matchDotNum]
    rw [if_pos hcq]
    rw [takeWhile_append_all _ hqtl, dropWhile_append_all _ hqtl]
    rw [takeWhile_digit_nil hsuf, dropWhile_digit_self hsuf]
    simp
  simp only [matchTag, htake, hdrop, htake2, hdrop2, hmd1, hmd2]

theorem splitOn_fmt_canonical :
    (("MAJOR.MINOR.PATCH").data).splitOn '.' = [("MAJOR").data, ("MINOR").data, ("PATCH").data] := by
  decide

theorem splitOn_fmt_mm :
    (("MAJOR.MINOR").data).splitOn '.' = [("MAJOR").data, ("MINOR").data] := by
  decide

theorem splitOn_fmt_m :
    (("MAJOR").data).splitOn '.' = [("MAJOR").data] := by
  decide

theorem lookupComponent_major (p : TagParts) :
    lookupComponent p (("MAJOR").data) = p.majS := by
  rw [lookupComponent, if_pos rfl]

theorem lookupComponent_minor (p : TagParts) :
    lookupComponent p (("MINOR").data) = p.minS.getD ['0'] := by
  rw [lookupComponent, if_neg (by decide), if_pos rfl]

theorem lookupComponent_patch (p : TagParts) :
    lookupComponent p (("PATCH").data) = p.patS.getD ['0'] := by
  rw [lookupComponent, if_neg (by decide), if_neg (by decide), if_pos rfl]

theorem intercalate_one (s a : List Char) : List.intercalate s [a] = a := by
  simp [List.intercalate, List.intersperse]

theorem intercalate_two (s a b : List Char) :
    List.intercalate s [a, b] = a ++ (s ++ b) := by
  simp [List.intercalate, List.intersperse]

theorem intercalate_three (s a b c : List Char) :
    List.intercalate s [a, b, c] = a ++ (s ++ (b ++ (s ++ c))) := by
  simp [List.intercalate, List.intersperse]

theorem convertVersionFormat_some {t fmt : List Char} {p : TagParts} (hne : fmt ≠ [])
    (hm : matchTag t = some p) :
    convertVersionFormat t fmt
      = p.pre ++ List.intercalate ['.'] ((fmt.splitOn '.').map (lookupComponent p)) ++ p.suf := by
  rw [convertVersionFormat, if_neg hne, hm]

theorem convert_canonical_eq {t : List Char} {p : TagParts} (hm : matchTag t = some p) :
    convertVersionFormat t (("MAJOR.MINOR.PATCH").data)
      = p.pre ++ (p.majS ++ ('.' :: ((p.minS.getD ['0']) ++ ('.' :: ((p.patS.getD ['0']) ++ p.suf))))) := by
  rw [convertVersionFormat_some (by decide) hm, splitOn_fmt_canonical]
  rw [List.map_cons, List.map_cons, List.map_cons, List.map_nil]
  rw [lookupComponent_major, lookupComponent_minor, lookupComponent_patch, intercalate_three]
  simp

/-- C2: converting a tag that carries exactly format `F`'s components to
canonical `MAJOR.MINOR.PATCH` form and back to `F` returns it unchanged,
prefix and suffix preserved verbatim. -/
theorem C2_roundtrip (t F : List Char) (p : TagParts)
    (hm : matchTag t = some p) (hs : formatShape F p) :
    convertVersionFormat (convertVersionFormat t (("MAJOR.MINOR.PATCH").data)) F = t := by
  obtain ⟨hpre, ⟨hM0, hM⟩, hmin, hpat, hsuf⟩ := matchTag_shape hm
  have hdec := matchTag_decomp hm
  have hcan := convert_canonical_eq hm
  have hm' : p.minS.getD ['0'] ≠ [] ∧ ∀ c ∈ p.minS.getD ['0'], c.isDigit = true := by
    cases hmv : p.minS with
    | none =>
      refine ⟨by simp, ?_⟩
      intro c hc
      simp only [Option.getD] at hc
      simp only [List.mem_singleton] at hc
      subst hc
      decide
    | some m => simpa using hmin m hmv
  have hp' : p.patS.getD ['0'] ≠ [] ∧ ∀ c ∈ p.patS.getD ['0'], c.isDigit = true := by
    cases hpv : p.patS with
    | none =>
      refine ⟨by simp, ?_⟩
      intro c hc
      simp only [Option.getD] at hc
      simp only [List.mem_singleton] at hc
      subst hc
      decide
    | some m => simpa using hpat m hpv
  have hre := matchTag_reparse hpre hM0 hM hm'.1 hm'.2 hp'.1 hp'.2 hsuf
  rw [hcan]
  rcases hs with ⟨hF, h1, h2⟩ | ⟨hF, h1, h2⟩ | ⟨hF, h1, h2⟩
  · obtain ⟨m, hmv⟩ := Option.isSome_iff_exists.mp h1
    obtain ⟨q, hpv⟩ := Option.isSome_iff_exists.mp h2
    subst hF
    rw [convertVersionFormat_some (by decide) hre, splitOn_fmt_canonical]
    rw [List.map_cons, List.map_cons, List.map_cons, List.map_nil]
    rw [lookupComponent_major, lookupComponent_minor, lookupComponent_patch, intercalate_three]
    rw [hdec]
    simp [optDot, hmv, hpv]
  · obtain ⟨m, hmv⟩ := Option.isSome_iff_exists.mp h1
    subst hF
    rw [convertVersionFormat_some (by decide) hre, splitOn_fmt_mm]
    rw [List.map_cons, List.map_cons, List.map_nil]
    rw [lookupComponent_major, lookupComponent_minor, intercalate_two]
    rw [hdec]
    simp [optDot, hmv, h2]
  · subst hF
    rw [convertVersionFormat_some (by decide) hre, splitOn_fmt_m]
    rw [List.map_cons, List.map_nil]
    rw [lookupComponent_major, intercalate_one]
    rw [hdec]
    simp [optDot, h1, h2]

/-- C2 witness: the concrete tag `v1.2` in format `MAJOR.MINOR` round-trips
through canonical form. -/
theorem C2_roundtrip_witness :
    convertVersionFormat (convertVersionFormat (("v1.2").data) (("MAJOR.MINOR.PATCH").data))
      (("MAJOR.MINOR").data) = ("v1.2").data :=
  C2_roundtrip (("v1.2").data) (("MAJOR.MINOR").data)
    ⟨("v").data, ("1").data, some (("2").data), none, []⟩ (by decide)
    (Or.inr (Or.inl (by decide)))

theorem LawfulCmp.congrR {α : Type} {cmp : α → α → Int} (h : LawfulCmp cmp)
    (a b c : α) (h0 : cmp a b = 0) : cmp c a = cmp c b := by
  have h2 := h.congrL a b c h0
  have h3 := h.antisym a c
  have h4 := h.antisym b c
  omega

theorem LawfulCmp.leTrans {α : Type} {cmp : α → α → Int} (h : LawfulCmp cmp)
    (a b c : α) (h1 : cmp a b ≤ 0) (h2 : cmp b c ≤ 0) : cmp a c ≤ 0 := by
  rcases h.range a b with hab | hab | hab <;> rcases h.range b c with hbc | hbc | hbc
  · have := h.ltTrans a b c hab hbc; omega
  · have := h.congrR b c a hbc
    omega
  · omega
  · have := h.congrL a b c hab; omega
  · have := h.congrL a b c hab; omega
  · omega
  · omega
  · omega
  · omega

theorem LawfulCmp.total {α : Type} {cmp : α → α → Int} (h : LawfulCmp cmp)
    (a b : α) : cmp a b ≤ 0 ∨ cmp b a ≤ 0 := by
  have h1 := h.antisym a b
  rcases h.range a b with h2 | h2 | h2 <;> omega

theorem lawful_comap {α β : Type} {cmp : α → α → Int} (h : LawfulCmp cmp) (f : β → α) :
    LawfulCmp (fun a b => cmp (f a) (f b)) :=
  ⟨fun a b => h.antisym (f a) (f b), fun a b => h.range (f a) (f b),
   fun a b c h0 => h.congrL (f a) (f b) (f c) h0,
   fun a b c h1 h2 => h.ltTrans (f a) (f b) (f c) h1 h2⟩

theorem lawful_flip {α : Type} {cmp : α → α → Int} (h : LawfulCmp cmp) :
    LawfulCmp (fun a b => cmp b a) := by
  refine ⟨?_, ?_, ?_, ?_⟩
  · intro a b; have := h.antisym b a; omega
  · intro a b; exact h.range b a
  · intro a b c h0
    have h0' : cmp a b = 0 := by have := h.antisym a b; omega
    exact h.congrR a b c h0'
  · intro a b c h1 h2
    exact h.ltTrans c b a h2 h1

theorem intOr_eq_zero {a b : Int} : intOr a b = 0 ↔ a = 0 ∧ b = 0 := by
  unfold intOr
  by_cases h : a = 0 <;> simp [h]

theorem lawful_intOr {α : Type} {c1 c2 : α → α → Int} (h1 : LawfulCmp c1) (h2 : LawfulCmp c2) :
    LawfulCmp (fun a b => intOr (c1 a b) (c2 a b)) := by
  refine ⟨?_, ?_, ?_, ?_⟩
  · intro a b
    have ha := h1.antisym a b
    have hb := h2.antisym a b
    unfold intOr
    by_cases h : c1 a b = 0
    · rw [if_pos h, if_pos (by omega)]
      exact hb
    · rw [if_neg h, if_neg (by omega)]
      exact ha
  · intro a b
    unfold intOr
    by_cases h : c1 a b = 0
    · rw [if_pos h]; exact h2.range a b
    · rw [if_neg h]; exact h1.range a b
  · intro a b c h0
    rw [intOr_eq_zero] at h0
    unfold intOr
    rw [h1.congrL a b c h0.1, h2.congrL a b c h0.2]
  · intro a b c hab hbc
    have r1 : c1 a b = -1 ∨ (c1 a b = 0 ∧ c2 a b = -1) := by
      revert hab; unfold intOr
      by_cases h : c1 a b = 0
      · rw [if_pos h]; intro hh; exact Or.inr ⟨h, hh⟩
      · rw [if_neg h]; intro hh; exact Or.inl hh
    have r2 : c1 b c = -1 ∨ (c1 b c = 0 ∧ c2 b c = -1) := by
      revert hbc; unfold intOr
      by_cases h : c1 b c = 0
      · rw [if_pos h]; intro hh; exact Or.inr ⟨h, hh⟩
      · rw [if_neg h]; intro hh; exact Or.inl hh
    unfold intOr
    rcases r1 with ha | ⟨ha, ha2⟩ <;> rcases r2 with hb | ⟨hb, hb2⟩
    · have := h1.ltTrans a b c ha hb
      rw [if_neg (by omega)]
      exact this
    · have := h1.congrR b c a hb
      rw [if_neg (by omega)]
      omega
    · have := h1.congrL a b c ha
      rw [if_neg (by omega)]
      omega
    · have hz := h1.congrL a b c ha
      have := h2.ltTrans a b c ha2 hb2
      rw [if_pos (by omega)]
      exact this

theorem cmpNat_lawful : LawfulCmp cmpNat := by
  refine ⟨?_, ?_, ?_, ?_⟩
  · intro a b; unfold cmpNat; split_ifs <;> omega
  · intro a b; unfold cmpNat; split_ifs <;> omega
  · intro a b c h0
    unfold cmpNat at h0 ⊢
    split_ifs at h0 ⊢ <;> omega
  · intro a b c h1 h2
    unfold cmpNat at h1 h2 ⊢
    split_ifs at h1 h2 ⊢ <;> omega

theorem cmpStr_antisym : ∀ a b : List Char, cmpStr b a = -cmpStr a b
  | [], [] => by simp [cmpStr]
  | [], _ :: _ => by simp [cmpStr]
  | _ :: _, [] => by simp [cmpStr]
  | a :: as, b :: bs => by
    simp only [cmpStr]
    split_ifs <;> first | omega | exact cmpStr_antisym as bs

theorem cmpStr_range : ∀ a b : List Char, cmpStr a b = -1 ∨ cmpStr a b = 0 ∨ cmpStr a b = 1
  | [], [] => by simp [cmpStr]
  | [], _ :: _ => by simp [cmpStr]
  | _ :: _, [] => by simp [cmpStr]
  | a :: as, b :: bs => by
    simp only [cmpStr]
    split_ifs <;> first | omega | exact cmpStr_range as bs

theorem cmpStr_eq_zero : ∀ a b : List Char, cmpStr a b = 0 ↔ a = b
  | [], [] => by simp [cmpStr]
  | [], _ :: _ => by simp [cmpStr]
  | _ :: _, [] => by simp [cmpStr]
  | a :: as, b :: bs => by
    simp only [cmpStr]
    split_ifs with hl hg
    · constructor
      · intro h; exact absurd h (by decide)
      · intro h; injection h with h1 h2; subst h1; omega
    · constructor
      · intro h; exact absurd h (by decide)
      · intro h; injection h with h1 h2; subst h1; omega
    · have htn : a.toNat = b.toNat := by omega
      have hab : a = b := Char.eq_of_val_eq (UInt32.ext htn)
      subst hab
      rw [cmpStr_eq_zero as bs]
      simp

theorem cmpStr_ltTrans : ∀ a b c : List Char,
    cmpStr a b = -1 → cmpStr b c = -1 → cmpStr a c = -1
  | [], [], _ => by intro h1 _; exact absurd h1 (by simp [cmpStr])
  | [], _ :: _, [] => by intro _ h2; exact absurd h2 (by simp [cmpStr])
  | [], _ :: _, _ :: _ => by intro _ _; rfl
  | _ :: _, [], _ => by intro h1 _; exact absurd h1 (by simp [cmpStr])
  | _ :: _, _ :: _, [] => by intro _ h2; exact absurd h2 (by simp [cmpStr])
  | a :: as, b :: bs, c :: cs => by
    intro h1 h2
    simp only [cmpStr] at h1 h2 ⊢
    split_ifs at h1 h2 ⊢ <;>
      first
      | rfl
      | omega
      | exact cmpStr_ltTrans as bs cs h1 h2

theorem cmpStr_lawful : LawfulCmp cmpStr := by
  refine ⟨cmpStr_antisym, cmpStr_range, ?_, cmpStr_ltTrans⟩
  intro a b c h0
  rw [(cmpStr_eq_zero a b).mp h0]

theorem cmpPreId_antisym : ∀ a b : PreId, cmpPreId b a = -cmpPreId a b
  | .num a, .num b => cmpNat_lawful.antisym a b
  | .num _, .str _ => by simp [cmpPreId]
  | .str _, .num _ => by simp [cmpPreId]
  | .str a, .str b => cmpStr_antisym a b

theorem cmpPreId_range : ∀ a b : PreId, cmpPreId a b = -1 ∨ cmpPreId a b = 0 ∨ cmpPreId a b = 1
  | .num a, .num b => cmpNat_lawful.range a b
  | .num _, .str _ => by simp [cmpPreId]
  | .str _, .num _ => by simp [cmpPreId]
  | .str a, .str b => cmpStr_range a b

theorem cmpNat_eq_zero {a b : Nat} : cmpNat a b = 0 ↔ a = b := by
  unfold cmpNat
  split_ifs <;> constructor <;> intro h <;> first | omega | (exfalso; revert h; decide)

theorem cmpPreId_eq_zero : ∀ a b : PreId, cmpPreId a b = 0 ↔ a = b
  | .num a, .num b => by
    simp only [cmpPreId, PreId.num.injEq]
    exact cmpNat_eq_zero
  | .num _, .str _ => by simp [cmpPreId]
  | .str _, .num _ => by simp [cmpPreId]
  | .str a, .str b => by
    simp only [cmpPreId, PreId.str.injEq]
    exact cmpStr_eq_zero a b

theorem cmpPreId_ltTrans : ∀ a b c : PreId,
    cmpPreId a b = -1 → cmpPreId b c = -1 → cmpPreId a c = -1
  | .num a, .num b, .num c => fun h1 h2 => cmpNat_lawful.ltTrans a b c h1 h2
  | .num _, .num _, .str _ => by intro _ _; rfl
  | .num _, .str _, .num _ => by intro _ h2; exact absurd h2 (by simp [cmpPreId])
  | .num _, .str _, .str _ => by intro _ _; rfl
  | .str _, .num _, _ => by intro h1 _; exact absurd h1 (by simp [cmpPreId])
  | .str _, .str _, .num _ => by intro _ h2; exact absurd h2 (by simp [cmpPreId])
  | .str a, .str b, .str c => fun h1 h2 => cmpStr_ltTrans a b c h1 h2

theorem cmpPreId_refl (a : PreId) : cmpPreId a a = 0 := (cmpPreId_eq_zero a a).mpr rfl

theorem cmpPreRest_antisym : ∀ a b : List PreId, cmpPreRest b a = -cmpPreRest a b
  | [], [] => by simp [cmpPreRest]
  | [], _ :: _ => by simp [cmpPreRest]
  | _ :: _, [] => by simp [cmpPreRest]
  | a :: as, b :: bs => by
    simp only [cmpPreRest]
    by_cases h : cmpPreId a b = 0
    · have h' : cmpPreId b a = 0 := by have := cmpPreId_antisym a b; omega
      rw [if_pos h', if_pos h]
      exact cmpPreRest_antisym as bs
    · have h' : ¬ cmpPreId b a = 0 := by have := cmpPreId_antisym a b; omega
      rw [if_neg h', if_neg h]
      exact cmpPreId_antisym a b

theorem cmpPreRest_range : ∀ a b : List PreId,
    cmpPreRest a b = -1 ∨ cmpPreRest a b = 0 ∨ cmpPreRest a b = 1
  | [], [] => by simp [cmpPreRest]
  | [], _ :: _ => by simp [cmpPreRest]
  | _ :: _, [] => by simp [cmpPreRest]
  | a :: as, b :: bs => by
    simp only [cmpPreRest]
    by_cases h : cmpPreId a b = 0
    · rw [if_pos h]
      exact cmpPreRest_range as bs
    · rw [if_neg h]
      exact cmpPreId_range a b

theorem cmpPreRest_eq_zero : ∀ a b : List PreId, cmpPreRest a b = 0 ↔ a = b
  | [], [] => by simp [cmpPreRest]
  | [], _ :: _ => by simp [cmpPreRest]
  | _ :: _, [] => by simp [cmpPreRest]
  | a :: as, b :: bs => by
    simp only [cmpPreRest]
    by_cases h : cmpPreId a b = 0
    · have hab : a = b := (cmpPreId_eq_zero a b).mp h
      subst hab
      rw [if_pos h]
      rw [cmpPreRest_eq_zero as bs]
      simp
    · rw [if_neg h]
      constructor
      · intro h0; exact absurd h0 h
      · intro h0
        injection h0 with h1 h2
        subst h1
        exact absurd (cmpPreId_refl a) h

theorem cmpPreRest_ltTrans : ∀ a b c : List PreId,
    cmpPreRest a b = -1 → cmpPreRest b c = -1 → cmpPreRest a c = -1
  | [], [], _ => by intro h1 _; exact absurd h1 (by simp [cmpPreRest])
  | [], _ :: _, [] => by intro _ h2; exact absurd h2 (by simp [cmpPreRest])
  | [], _ :: _, _ :: _ => by intro _ _; rfl
  | _ :: _, [], _ => by intro h1 _; exact absurd h1 (by simp [cmpPreRest])
  | _ :: _, _ :: _, [] => by intro _ h2; exact absurd h2 (by simp [cmpPreRest])
  | a :: as, b :: bs, c :: cs => by
    intro h1 h2
    simp only [cmpPreRest] at h1 h2 ⊢
    by_cases hab : cmpPreId a b = 0 <;> by_cases hbc : cmpPreId b c = 0
    · have e1 : a = b := (cmpPreId_eq_zero a b).mp hab
      subst e1
      have e2 : a = c := (cmpPreId_eq_zero a c).mp hbc
      subst e2
      rw [if_pos (cmpPreId_refl a)]
      rw [if_pos (cmpPreId_refl a)] at h1 h2
      exact cmpPreRest_ltTrans as bs cs h1 h2
    · have e1 : a = b := (cmpPreId_eq_zero a b).mp hab
      subst e1
      rw [if_neg hbc] at h2
      rw [if_neg hbc]
      exact h2
    · have e2 : b = c := (cmpPreId_eq_zero b c).mp hbc
      subst e2
      rw [if_neg hab] at h1
      rw [if_neg hab]
      exact h1
    · rw [if_neg hab] at h1
      rw [if_neg hbc] at h2
      have := cmpPreId_ltTrans a b c h1 h2
      rw [if_neg (by omega)]
      exact this

theorem comparePre_lawful : LawfulCmp comparePre := by
  refine ⟨?_, ?_, ?_, ?_⟩
  · intro a b
    match a, b with
    | [], [] => simp [comparePre]
    | [], _ :: _ => simp [comparePre]
    | _ :: _, [] => simp [comparePre]
    | a :: as, b :: bs => exact cmpPreRest_antisym (a :: as) (b :: bs)
  · intro a b
    match a, b with
    | [], [] => simp [comparePre]
    | [], _ :: _ => simp [comparePre]
    | _ :: _, [] => simp [comparePre]
    | a :: as, b :: bs => exact cmpPreRest_range (a :: as) (b :: bs)
  · intro a b c h0
    have hab : a = b := by
      match a, b with
      | [], [] => rfl
      | [], _ :: _ => exact absurd h0 (by simp [comparePre])
      | _ :: _, [] => exact absurd h0 (by simp [comparePre])
      | a :: as, b :: bs => exact (cmpPreRest_eq_zero (a :: as) (b :: bs)).mp h0
    rw [hab]
  · intro a b c h1 h2
    match a, b, c with
    | [], [], _ => exact absurd h1 (by simp [comparePre])
    | [], _ :: _, [] => exact absurd h1 (by simp [comparePre])
    | [], _ :: _, _ :: _ => exact absurd h1 (by simp [comparePre])
    | _ :: _, [], [] => exact absurd h2 (by simp [comparePre])
    | _ :: _, [], _ :: _ => exact absurd h2 (by simp [comparePre])
    | _ :: _, _ :: _, [] => rfl
    | a :: as, b :: bs, c :: cs => exact cmpPreRest_ltTrans (a :: as) (b :: bs) (c :: cs) h1 h2

theorem compareSemVer_lawful : LawfulCmp compareSemVer :=
  lawful_intOr
    (lawful_intOr (lawful_comap cmpNat_lawful SemVer.major)
      (lawful_intOr (lawful_comap cmpNat_lawful SemVer.minor)
        (lawful_comap cmpNat_lawful SemVer.patch)))
    (lawful_comap comparePre_lawful SemVer.pre)

theorem optCmp_lawful {cmp : SemVer → SemVer → Int} (h : LawfulCmp cmp) :
    LawfulCmp (optCmp cmp) := by
  refine ⟨?_, ?_, ?_, ?_⟩
  · intro a b
    match a, b with
    | some x, some y => exact h.antisym x y
    | some _, none => simp [optCmp]
    | none, some _ => simp [optCmp]
    | none, none => simp [optCmp]
  · intro a b
    match a, b with
    | some x, some y => exact h.range x y
    | some _, none => simp [optCmp]
    | none, some _ => simp [optCmp]
    | none, none => simp [optCmp]
  · intro a b c h0
    match a, b, c with
    | some x, some y, some z => exact h.congrL x y z h0
    | some x, some y, none => simp [optCmp]
    | some _, none, _ => exact absurd h0 (by simp [optCmp])
    | none, some _, _ => exact absurd h0 (by simp [optCmp])
    | none, none, some _ => simp [optCmp]
    | none, none, none => simp [optCmp]
  · intro a b c h1 h2
    match a, b, c with
    | some x, some y, some z => exact h.ltTrans x y z h1 h2
    | some x, some y, none => rfl
    | some _, none, none => exact absurd h2 (by simp [optCmp])
    | some _, none, some _ => exact absurd h2 (by simp [optCmp])
    | none, some _, _ => exact absurd h1 (by simp [optCmp])
    | none, none, _ => exact absurd h1 (by simp [optCmp])

theorem rcompareStr_lawful :
    LawfulCmp (fun a b => rcompareStr a b) :=
  lawful_comap (optCmp_lawful (lawful_flip compareSemVer_lawful)) semverParse

theorem tagCmp_lawful (pref : List Char) :
    LawfulCmp (fun a b : Tag => rcompareStr (stripPref pref a.name) (stripPref pref b.name)) :=
  lawful_comap rcompareStr_lawful (fun t => stripPref pref t.name)

/-- C5 (amended): the catalog `getValidTags` produces is descending by
semver precedence — every earlier entry compares `≤ 0` under the
descending comparator against every later one, ties included — and every
entry passes the prefix/semver validation; no failing tag appears. -/
theorem C5_catalog_sorted_valid (pref fmt : List Char) (tags : List Tag) :
    List.Sorted (tagSortRel pref) (getValidTags pref fmt tags) ∧
    ∀ t ∈ getValidTags pref fmt tags,
      prefTest pref t.name = true ∧ (semverParse (stripPref pref t.name)).isSome = true := by
  have hl := tagCmp_lawful pref
  constructor
  · haveI : IsTotal Tag (tagSortRel pref) := ⟨fun a b => hl.total a b⟩
    haveI : IsTrans Tag (tagSortRel pref) := ⟨fun a b c => hl.leTrans a b c⟩
    exact List.sorted_insertionSort _ _
  · intro t ht
    unfold getValidTags at ht
    rw [List.mem_insertionSort] at ht
    have := (List.mem_filter.mp ht).2
    unfold validTagPred at this
    exact ⟨(Bool.and_eq_true .. ▸ this).1, (Bool.and_eq_true .. ▸ this).2⟩

/-- C5 counterexample: two distinct valid tags of equal semver precedence
(build metadata is precedence-inert) survive validation and sort as
neighbours comparing equal, so the catalog is not *strictly* descending. -/
theorem C5_counterexample :
    (getValidTags (("v").data) (("MAJOR.MINOR.PATCH").data)
        [⟨("v1.2.3").data, ("a").data⟩, ⟨("v1.2.3+build").data, ("b").data⟩]).map Tag.name
      = [("v1.2.3").data, ("v1.2.3+build").data] ∧
    rcompareStr (stripPref (("v").data) (("v1.2.3").data))
        (stripPref (("v").data) (("v1.2.3+build").data)) = 0 ∧
    ("v1.2.3").data ≠ ("v1.2.3+build").data := by
  refine ⟨by decide, by decide, by decide⟩

/-- C5 witness: on a concrete catalog the sortedness and validation facts
instantiate. -/
theorem C5_catalog_sorted_valid_witness :
    prefTest (("v").data) (("v1.0.0").data) = true ∧
    (semverParse (stripPref (("v").data) (("v1.0.0").data))).isSome = true :=
  (C5_catalog_sorted_valid (("v").data) (("MAJOR.MINOR.PATCH").data)
      [⟨("v1.0.0").data, ("s").data⟩]).2 ⟨("v1.0.0").data, ("s").data⟩ (by decide)

theorem find?_filter_fused {α : Type} (p q : α → Bool) (l : List α) :
    (l.filter p).find? q = l.find? (fun a => p a && q a) := by
  induction l with
  | nil => rfl
  | cons a l ih =>
    by_cases hp : p a
    · by_cases hq : q a
      · simp [List.filter_cons, List.find?_cons, hp, hq]
      · simp [List.filter_cons, List.find?_cons, hp, hq, ih]
    · simp [List.filter_cons, List.find?_cons, hp, ih]

/-- C6 (amended): `getLatestPrereleaseTag` returns the first catalog entry
that both carries a pre-release component and whose *entire*
prefix-stripped name contains the identifier — the filter/find pair fuses
into a single first-match scan of the catalog in its stored order. -/
theorem C6_first_prerelease_match (tags : List Tag) (id pref : List Char) :
    getLatestPrereleaseTag tags id pref
      = tags.find? (fun t => (semverPrerelease (stripPref pref t.name)).isSome
          && jsMatchLit (stripPref pref t.name) id) :=
  find?_filter_fused _ _ tags

/-- C6 counterexample: with identifier `1` and the sole catalog entry
`v1.2.3-rc.0`, the entry is returned although its pre-release component
`rc.0` does not contain `1` — the identifier matched the major digit of
the version core instead. -/
theorem C6_counterexample :
    getLatestPrereleaseTag [⟨("v1.2.3-rc.0").data, ("s").data⟩] (("1").data) (("v").data)
        = some ⟨("v1.2.3-rc.0").data, ("s").data⟩ ∧
    semverParse (("1.2.3-rc.0").data)
        = some ⟨1, 2, 3, [.str (("rc").data), .num 0], []⟩ ∧
    jsMatchLit (preText [.str (("rc").data), .num 0]) (("1").data) = false := by
  refine ⟨by decide, by decide, by decide⟩

theorem findIdxA_none {α : Type} (p : α → Bool) (l : List α) :
    findIdxA p l = none ↔ l.find? p = none := by
  induction l with
  | nil => simp [findIdxA]
  | cons a l ih =>
    by_cases hp : p a
    · simp [findIdxA, List.find?_cons, hp]
    · simp [findIdxA, List.find?_cons, hp, ih]

theorem findIdxA_get {α : Type} (p : α → Bool) (l : List α) :
    ∀ i, findIdxA p l = some i → l.get? i = l.find? p := by
  induction l with
  | nil => intro i h; simp [findIdxA] at h
  | cons a l ih =>
    intro i h
    by_cases hp : p a
    · simp only [findIdxA, if_pos hp, Option.some.injEq] at h
      subst h
      simp [List.find?_cons, hp]
    · simp only [findIdxA, if_neg hp] at h
      match hi : findIdxA p l with
      | none => rw [hi] at h; simp at h
      | some j =>
        rw [hi] at h
        simp only [Option.map_some', Option.some.injEq] at h
        subst h
        simp only [List.get?_cons_succ, List.find?_cons, hp]
        exact ih j hi

theorem getLatestTag_of_findIdxA {tags : List Tag} {pref tagPref : List Char} {i : Nat}
    (h : findIdxA (latestTagPred pref) tags = some i) :
    tags.get? i = some (getLatestTag tags pref tagPref) := by
  have hg := findIdxA_get _ _ _ h
  cases hf : tags.find? (latestTagPred pref) with
  | none =>
    have := (findIdxA_none (latestTagPred pref) tags).mpr hf
    rw [this] at h
    cases h
  | some t =>
    rw [hf] at hg
    rw [hg]
    unfold getLatestTag
    rw [hf]
    rfl

theorem getLatestPrereleaseTag_of_findIdxA {tags : List Tag} {pref id : List Char} {i : Nat}
    {lp : Tag} (hlp : getLatestPrereleaseTag tags id pref = some lp)
    (h : findIdxA (prereleasePred pref id) tags = some i) :
    tags.get? i = some lp := by
  have hg := findIdxA_get _ _ _ h
  rw [hg]
  have h2 : tags.find? (fun t => (semverPrerelease (stripPref pref t.name)).isSome
      && jsMatchLit (stripPref pref t.name) id) = some lp := by
    rw [← find?_filter_fused]
    exact hlp
  exact h2

theorem selectPreviousTagIdx_get (tags : List Tag) (pref tagPref id : List Char) (isRel : Bool)
    {i : Nat} (h : selectPreviousTagIdx tags pref tagPref id isRel = some i) :
    tags.get? i = some (selectPreviousTag tags pref tagPref id isRel) := by
  unfold selectPreviousTagIdx at h
  unfold selectPreviousTag
  cases hlp : getLatestPrereleaseTag tags id pref with
  | none =>
    simp only [hlp] at h ⊢
    exact getLatestTag_of_findIdxA h
  | some lp =>
    simp only [hlp] at h ⊢
    by_cases hrel : isRel = true
    · simp only [hrel, if_true] at h ⊢
      exact getLatestTag_of_findIdxA h
    · simp only [Bool.not_eq_true] at hrel
      simp only [hrel, Bool.false_eq_true, if_false] at h ⊢
      by_cases hg : gteStr (stripPref pref (getLatestTag tags pref tagPref).name)
          (stripPref pref lp.name) = true
      · simp only [hg, if_true] at h ⊢
        exact getLatestTag_of_findIdxA h
      · simp only [Bool.not_eq_true] at hg
        simp only [hg, Bool.false_eq_true, if_false] at h ⊢
        exact getLatestPrereleaseTag_of_findIdxA hlp h

/-- C9 (amended): the previous-tag rendering step mutates exactly the
catalog entry aliased by `previousTag` — its `name` field is overwritten
with the `version_format` rendering while its sha and every other catalog
entry are untouched — and the reported `previous_tag` value is that
rewritten name. -/
theorem C9_prev_step_frame (tags : List Tag) (pref tagPref id fmt : List Char) (isRel : Bool)
    (i j : Nat) (hi : selectPreviousTagIdx tags pref tagPref id isRel = some i) (hij : i ≠ j) :
    (prevTagStep tags pref tagPref id fmt isRel).1.get? j = tags.get? j ∧
    (prevTagStep tags pref tagPref id fmt isRel).1.get? i
      = some ⟨convertVersionFormat (selectPreviousTag tags pref tagPref id isRel).name fmt,
          (selectPreviousTag tags pref tagPref id isRel).sha⟩ ∧
    (prevTagStep tags pref tagPref id fmt isRel).2
      = ⟨convertVersionFormat (selectPreviousTag tags pref tagPref id isRel).name fmt,
        (selectPreviousTag tags pref tagPref id isRel).sha⟩ := by
  have hget := selectPreviousTagIdx_get tags pref tagPref id isRel hi
  unfold prevTagStep
  rw [hi]
  refine ⟨?_, ?_, rfl⟩
  · exact List.get?_set_ne _ _ hij
  · rw [List.get?_set_eq, hget]
    rfl

/-- C9 counterexample: with `version_format = MAJOR.MINOR` the previous-tag
step rewrites the selected catalog entry's name from `v1.2.0` to `v1.2`;
the entry does not keep its name across the rendering of `previous_tag`. -/
theorem C9_counterexample :
    (prevTagStep [⟨("v1.2.0").data, ("s").data⟩] (("v").data) (("v").data) (("x").data)
        (("MAJOR.MINOR").data) true).1.get? 0
      = some ⟨("v1.2").data, ("s").data⟩ ∧
    (prevTagStep [⟨("v1.2.0").data, ("s").data⟩] (("v").data) (("v").data) (("x").data)
        (("MAJOR.MINOR").data) true).1.get? 0
      ≠ some ⟨("v1.2.0").data, ("s").data⟩ := by
  refine ⟨by decide, by decide⟩

/-- C9 witness: the frame property instantiated on a two-entry catalog. -/
theorem C9_prev_step_frame_witness :
    (prevTagStep [⟨("v1.2.0").data, ("s").data⟩, ⟨("v1.0.0").data, ("r").data⟩]
        (("v").data) (("v").data) (("x").data) (("MAJOR.MINOR").data) true).1.get? 1
      = [⟨("v1.2.0").data, ("s").data⟩, ⟨("v1.0.0").data, ("r").data⟩].get? 1 :=
  (C9_prev_step_frame [⟨("v1.2.0").data, ("s").data⟩, ⟨("v1.0.0").data, ("r").data⟩]
      (("v").data) (("v").data) (("x").data) (("MAJOR.MINOR").data) true 0 1
      (by decide) (by decide)).1

theorem jsMatchLit_iff (s pat : List Char) : jsMatchLit s pat = true ↔ pat <:+: s := by
  induction s with
  | nil =>
    simp [jsMatchLit, List.infix_nil, List.isPrefixOf_iff_prefix, List.prefix_nil]
  | cons c rest ih =>
    simp [jsMatchLit, List.isPrefixOf_iff_prefix, ih, List.infix_cons_iff]

/-- C3 (amended): a branch-pattern entry matches whenever its text occurs
*anywhere* in the branch name — `String.match` performs an unanchored
substring search, not a whole-string match. -/
theorem C3_substring_match (patterns branch : List Char) :
    anyPatternMatches patterns branch = true ↔
      ∃ p ∈ patterns.splitOn ',', p <:+: branch := by
  unfold anyPatternMatches
  rw [List.any_eq_true]
  constructor
  · rintro ⟨p, hp, hm⟩
    exact ⟨p, hp, (jsMatchLit_iff branch p).mp hm⟩
  · rintro ⟨p, hp, hm⟩
    exact ⟨p, hp, (jsMatchLit_iff branch p).mpr hm⟩

/-- C3 counterexample: branch `not-main-x` is classified `Release` under the
release pattern `main` although no entry of the pattern list equals the
whole branch name — containment as a proper substring sufficed. -/
theorem C3_counterexample :
    classifyBranch (("refs/heads/not-main-x").data) (("main").data) [] = .release ∧
    (∀ p ∈ ((("main").data).splitOn ','), p ≠ getBranchFromRef (("refs/heads/not-main-x").data)) := by
  refine ⟨by decide, by decide⟩

/-- C4 (amended): a pull-request ref is never classified `PreRelease`, the
pull-request test only gates the pre-release flag; the `Release`
classification is not similarly guarded. -/
theorem C4_pr_not_prerelease (ref relB preB : List Char) (h : isPr ref = true) :
    classifyBranch ref relB preB ≠ .preRelease := by
  unfold classifyBranch
  simp only [h]
  by_cases hr : anyPatternMatches relB (getBranchFromRef ref) = true
  · simp [hr]
  · simp [hr]

/-- C4 witness: the pull-request ref `refs/pull/1/x` is not classified
`PreRelease` even though the pre-release pattern `x` matches it. -/
theorem C4_pr_not_prerelease_witness :
    classifyBranch (("refs/pull/1/x").data) (("zzz").data) (("x").data) ≠ .preRelease :=
  C4_pr_not_prerelease (("refs/pull/1/x").data) (("zzz").data) (("x").data) (by decide)

/-- C4 counterexample: a ref containing `refs/pull/` is classified `Release`
when a release pattern matches it, and the `Release` path then reaches the
tag-creation call. -/
theorem C4_counterexample :
    isPr (("refs/pull/123/merge").data) = true ∧
    classifyBranch (("refs/pull/123/merge").data) (("merge").data) [] = .release ∧
    finalizeRun [] (("v1.0.1").data) true false false = .created (("v1.0.1").data) := by
  refine ⟨by decide, by decide, by decide⟩

/-- C1: evaluating the release-branch decision of `main` at
`default_bump = patch` with analysed signal `major`: the code returns
`major`, choosing the *higher*-ranked of the two, while its own comment —
and the claim — call for the weaker (`patch`). -/
theorem C1_code_eval :
    releaseTypeOnReleaseBranch (("patch").data) (("major").data) = ("major").data := by
  decide

/-- C7: evaluating `removeDotFromPreReleaseIdentifier` in `add` mode on the
already-dotted tag `v1.2.3-rc.1`: the `(-rc)(\w+)` search cannot match a
dot, so control falls through to the dot-removing replacement and the tag
comes back as `v1.2.3-rc1` instead of unchanged. -/
theorem C7_code_eval :
    removeDotFromPreReleaseIdentifier (("v1.2.3-rc.1").data) (("rc").data) DotMode.add
      = ("v1.2.3-rc1").data := by
  decide

/-- C8: when the computed `new_tag` string is already among the catalog's
stored names, the run ends in one of the two non-creating skips — it never
reaches `createTag` and no failure is reported, whatever the
`version_format`. -/
theorem C8_existing_tag_skips (validTags : List Tag) (nv tagPref fmt : List Char)
    (isRel isPre dry : Bool)
    (h : (validTags.map Tag.name).contains (computeNewTag tagPref nv fmt) = true) :
    finalizeRun validTags (computeNewTag tagPref nv fmt) isRel isPre dry
        = .skippedBranch ∨
    finalizeRun validTags (computeNewTag tagPref nv fmt) isRel isPre dry
        = .skippedExists := by
  unfold finalizeRun
  by_cases hb : (!isRel && !isPre) = true
  · rw [if_pos hb]
    exact Or.inl rfl
  · rw [if_neg hb, if_pos h]
    exact Or.inr rfl

/-- C8 witness: with `version_format = MAJOR.MINOR`, catalog entry `v1.2`
and computed version `1.2.0`, the run skips instead of creating. -/
theorem C8_existing_tag_skips_witness :
    finalizeRun [⟨("v1.2").data, ("s").data⟩]
        (computeNewTag (("v").data) (("1.2.0").data) (("MAJOR.MINOR").data)) true false false
      = .skippedBranch ∨
    finalizeRun [⟨("v1.2").data, ("s").data⟩]
        (computeNewTag (("v").data) (("1.2.0").data) (("MAJOR.MINOR").data)) true false false
      = .skippedExists :=
  C8_existing_tag_skips [⟨("v1.2").data, ("s").data⟩] (("1.2.0").data) (("v").data)
    (("MAJOR.MINOR").data) true false false (by decide)

/-- C10: on a branch that is neither a release nor a pre-release branch the
`new_version`, `new_tag` and `changelog` outputs are still computed and
set, and the run ends in the branch skip, never reaching tag creation. -/
theorem C10_outputs_on_skip (validTags : List Tag) (nv tagPref fmt changelog : List Char)
    (isRel isPre dry : Bool) (h1 : isRel = false) (h2 : isPre = false) :
    (mainTail validTags nv tagPref fmt changelog isRel isPre dry).1
      = [(("new_version").data, computeNewVersion nv fmt),
         (("new_tag").data, computeNewTag tagPref nv fmt),
         (("changelog").data, changelog)] ∧
    (mainTail validTags nv tagPref fmt changelog isRel isPre dry).2 = .skippedBranch := by
  subst h1
  subst h2
  exact ⟨rfl, rfl⟩

/-- C10 witness: the outputs are set and the branch skip taken on a concrete
non-matching run. -/
theorem C10_outputs_on_skip_witness :
    (mainTail [] (("1.2.3").data) (("v").data) (("MAJOR.MINOR.PATCH").data) (("log").data)
        false false false).1
      = [(("new_version").data,
            computeNewVersion (("1.2.3").data) (("MAJOR.MINOR.PATCH").data)),
         (("new_tag").data,
            computeNewTag (("v").data) (("1.2.3").data) (("MAJOR.MINOR.PATCH").data)),
         (("changelog").data, ("log").data)] ∧
    (mainTail [] (("1.2.3").data) (("v").data) (("MAJOR.MINOR.PATCH").data) (("log").data)
        false false false).2 = .skippedBranch :=
  C10_outputs_on_skip [] (("1.2.3").data) (("v").data) (("MAJOR.MINOR.PATCH").data)
    (("log").data) false false false rfl rfl
